import Mathlib

/-
Verification development for the cassandra model-coupling framework.

The definitions below are a shallow embedding of the Python source:

  - cassandra/components.py : ComponentBase (run_component_wrapper, fetch,
    finalize_parsing, addparam, addcapability) and GlobalParamsComponent
  - cassandra/rab.py        : RAB (addremote, unique_tag, fetch)
  - cassandra/constants.py  : MPI tag constants
  - cassandra/mp.py         : distribute_assignments_supervisor
  - cassandra/cassandra_main.py : main (single-process path)
  - gcamutil.py             : parseTFstring

Python dictionaries are modelled as association lists in insertion order
(assignment to an existing key updates in place, a new key is appended).
Machine-level concerns (threads, MPI) are modelled by making the relevant
rendezvous/status observations explicit arguments or event traces.
-/

/-! ## Python dict model -/

abbrev Val := String

/-- Association-list model of a Python dict with string keys. -/
abbrev Dict := List (String × Val)

/-- Lookup d[k] (None when the key is absent). -/
def dictGet (d : Dict) (k : String) : Option Val :=
  (d.find? (fun p => p.1 = k)).map (·.2)

/-- Assignment d[k] = v: update in place when the key exists, else append. -/
def dictSet (d : Dict) (k : String) (v : Val) : Dict :=
  if d.any (fun p => p.1 = k) then
    d.map (fun p => if p.1 = k then (k, v) else p)
  else
    d ++ [(k, v)]

theorem find_repl_self (d : Dict) (k : String) (v : Val)
    (h : d.any (fun p => p.1 = k) = true) :
    List.find? (fun p => decide (p.1 = k))
      (d.map (fun p => if p.1 = k then (k, v) else p)) = some (k, v) := by
  induction d with
  | nil => simp at h
  | cons p rest ih =>
    simp only [List.any_cons, Bool.or_eq_true, decide_eq_true_eq] at h
    by_cases hp : p.1 = k
    · simp [List.find?, hp]
    · simp only [List.map_cons, if_neg hp]
      rw [List.find?_cons_of_neg _ (by simpa using hp)]
      exact ih (by tauto)

theorem find_app_self (d : Dict) (k : String) (v : Val)
    (h : d.any (fun p => p.1 = k) = false) :
    List.find? (fun p => decide (p.1 = k)) (d ++ [(k, v)]) = some (k, v) := by
  induction d with
  | nil => simp [List.find?]
  | cons p rest ih =>
    simp only [List.any_cons, Bool.or_eq_false_iff, decide_eq_false_iff_not] at h
    simp only [List.cons_append]
    rw [List.find?_cons_of_neg _ (by simpa using h.1)]
    exact ih (by simpa using h.2)

theorem find_repl_ne (d : Dict) (k k' : String) (v : Val) (hk : k' ≠ k) :
    List.find? (fun p => decide (p.1 = k'))
        (d.map (fun p => if p.1 = k then (k, v) else p))
      = List.find? (fun p => decide (p.1 = k')) d := by
  induction d with
  | nil => simp
  | cons p rest ih =>
    by_cases hp : p.1 = k
    · have hp' : ¬ p.1 = k' := fun hc => hk (hc ▸ hp ▸ rfl)
      simp only [List.map_cons, if_pos hp]
      rw [List.find?_cons_of_neg _ (by simpa using Ne.symm hk),
          List.find?_cons_of_neg _ (by simpa using hp')]
      exact ih
    · simp only [List.map_cons, if_neg hp]
      by_cases hp' : p.1 = k'
      · rw [List.find?_cons_of_pos _ (by simpa using hp'),
            List.find?_cons_of_pos _ (by simpa using hp')]
      · rw [List.find?_cons_of_neg _ (by simpa using hp'),
            List.find?_cons_of_neg _ (by simpa using hp')]
        exact ih

theorem find_app_ne (d : Dict) (k k' : String) (v : Val) (hk : k' ≠ k) :
    List.find? (fun p => decide (p.1 = k')) (d ++ [(k, v)])
      = List.find? (fun p => decide (p.1 = k')) d := by
  induction d with
  | nil => simp [List.find?, Ne.symm hk]
  | cons p rest ih =>
    by_cases hp' : p.1 = k'
    · simp only [List.cons_append]
      rw [List.find?_cons_of_pos _ (by simpa using hp'),
          List.find?_cons_of_pos _ (by simpa using hp')]
    · simp only [List.cons_append]
      rw [List.find?_cons_of_neg _ (by simpa using hp'),
          List.find?_cons_of_neg _ (by simpa using hp')]
      exact ih

theorem dictGet_dictSet_self (d : Dict) (k : String) (v : Val) :
    dictGet (dictSet d k v) k = some v := by
  unfold dictGet dictSet
  split
  · rename_i h; rw [find_repl_self d k v h]; rfl
  · rename_i h
    have h' : d.any (fun p => p.1 = k) = false := by
      cases hb : d.any (fun p => p.1 = k) with
      | false => rfl
      | true => exact absurd hb h
    rw [find_app_self d k v h']; rfl

theorem dictGet_dictSet_ne (d : Dict) (k k' : String) (v : Val) (hk : k' ≠ k) :
    dictGet (dictSet d k v) k' = dictGet d k' := by
  unfold dictGet dictSet
  split
  · rw [find_repl_ne d k k' v hk]
  · rw [find_app_ne d k k' v hk]

/-! ## Body wrapper (components.py, ComponentBase.run_component_wrapper, lines 176-222)

The wrapper runs the component body inside a with-block on the component's
condition variable:

    try:
        rv = self.run_component()
        if not rv == 0: raise RuntimeError(...)
        self.status = 1
    except:
        self.status = 2
        raise
    finally:
        self.condition.notify_all()

We model the body's behaviour as an outcome (normal return value, or an
exception) and the wrapper as the event trace it performs on the shared
state: writes to self.status and calls to notify_all. -/

/-- Outcome of a call to run_component: a normal return value or an exception. -/
inductive BodyOutcome where
  | ret (rv : Int)
  | exn
deriving DecidableEq

/-- Observable events performed by the wrapper on the shared component state. -/
inductive WEvent where
  | setStatus (s : Nat)
  | notifyAll
deriving DecidableEq

/-- Result of one wrapper execution: the event trace (in order), the final
stored status (initial status is 0 = PENDING), and whether an exception
propagates out of the wrapper. -/
structure WrapperRun where
  trace : List WEvent
  status : Nat
  raised : Bool
deriving DecidableEq

/-- Final value of self.status after replaying the trace from the initial status. -/
def lastStatus (events : List WEvent) (init : Nat) : Nat :=
  events.foldl (fun s e => match e with | .setStatus s' => s' | .notifyAll => s) init

/-- Number of notify_all calls in a trace. -/
def notifyCount (events : List WEvent) : Nat :=
  (events.filter (fun e => e = WEvent.notifyAll)).length

/-- Shallow embedding of ComponentBase.run_component_wrapper.  The try block
either sets status 1 (rv = 0) or raises; the except block sets status 2 and
re-raises; the finally block always calls notify_all. -/
def run_component_wrapper (outcome : BodyOutcome) : WrapperRun :=
  let tryStep : List WEvent × Bool :=
    match outcome with
    | .ret rv => if rv = 0 then ([WEvent.setStatus 1], false) else ([], true)
    | .exn => ([], true)
  let exceptStep : List WEvent × Bool :=
    if tryStep.2 then ([WEvent.setStatus 2], true) else ([], false)
  let trace := tryStep.1 ++ exceptStep.1 ++ [WEvent.notifyAll]
  { trace := trace
    status := lastStatus trace 0
    raised := exceptStep.2 }

/-- C1: the wrapper drives the status from PENDING (0) to exactly one terminal
state; the terminal state is SUCCESS (1) iff run_component returned 0 and
FAILURE (2) otherwise (non-zero return or exception, in which case the error
propagates); and in every run the rendezvous (notify_all) is signalled exactly
once, strictly after the terminal status has been written. -/
theorem run_component_wrapper_spec (outcome : BodyOutcome) :
    let w := run_component_wrapper outcome
    (w.status = 1 ∨ w.status = 2)
    ∧ (w.status = 1 ↔ outcome = BodyOutcome.ret 0)
    ∧ (w.raised = true ↔ w.status = 2)
    ∧ notifyCount w.trace = 1
    ∧ w.trace = [WEvent.setStatus w.status, WEvent.notifyAll] := by
  cases outcome with
  | ret rv =>
    by_cases h : rv = 0 <;>
      simp [run_component_wrapper, lastStatus, notifyCount, List.filter, h]
  | exn =>
    simp [run_component_wrapper, lastStatus, notifyCount, List.filter]

/-! ## parseTFstring (gcamutil.py, lines 15-18) and the clobber parameter
(components.py, ComponentBase.finalize_parsing, lines 285-299) -/

/-- The strings treated as false by the source (gcamutil.py lines 16-17). -/
def falsevals : List String :=
  ["False", "false", "FALSE", "F", "f", "No", "NO", "N", "no", "0"]

/-- Embedding of val.lstrip().rstrip(): with no arguments this strips
whitespace from both ends of the string. -/
def pyStrip (s : String) : String :=
  String.mk (((s.toList.dropWhile Char.isWhitespace).reverse.dropWhile
    Char.isWhitespace).reverse)

/-- Embedding of parseTFstring: val.lstrip().rstrip() not in falsevals. -/
def parseTFstring (val : String) : Bool :=
  !(falsevals.contains (pyStrip val))

/-- Embedding of the clobber handling in ComponentBase.finalize_parsing:
default True, overridden by parseTFstring of the clobber parameter. -/
def finalize_parsing (params : Dict) : Bool :=
  match dictGet params "clobber" with
  | none => true
  | some v => parseTFstring v

/-- Lower-casing of ASCII letters, used to state the claim's case-insensitive
membership test. -/
def asciiLower (s : String) : String :=
  String.mk (s.toList.map (fun c =>
    if 'A' ≤ c ∧ c ≤ 'Z' then Char.ofNat (c.toNat + 32) else c))

/-- Predicate stated by the claim (for comparison with the source): the
clobber flag is false exactly when the whitespace-trimmed string is one of
false, no, n, 0 in any letter case; true otherwise; true when absent. -/
def claimClobberOf (params : Dict) : Bool :=
  match dictGet params "clobber" with
  | none => true
  | some v => !(["false", "no", "n", "0"].contains (asciiLower (pyStrip v)))

/-- C4 counterexample: for the clobber value "F" the source sets the flag to
false (since "F" is in the falsevals list), while the claim's rule ("false",
"no", "n", "0" in any letter case) would leave it true.  The same divergence
occurs on mixed-case spellings such as "fAlSe" (source: true, claim: false). -/
theorem finalize_parsing_clobber_counterexample :
    finalize_parsing [("clobber", "F")] = false
    ∧ claimClobberOf [("clobber", "F")] = true
    ∧ finalize_parsing [("clobber", "fAlSe")] = true
    ∧ claimClobberOf [("clobber", "fAlSe")] = false := by
  decide

/-- C4 amended: finalize_parsing sets the clobber flag to false exactly when
the whitespace-trimmed string is literally one of the ten entries of the
falsevals list ("False", "false", "FALSE", "F", "f", "No", "NO", "N", "no",
"0"); all other strings give true, and an absent clobber key defaults to
true.  Matching is case-sensitive on exactly these spellings; the bare "n"
and mixed-case spellings are not treated as false. -/
theorem finalize_parsing_clobber_spec (v : Val) :
    (finalize_parsing [("clobber", v)] = false ↔ pyStrip v ∈ falsevals)
    ∧ finalize_parsing [] = true
    ∧ finalize_parsing [("clobber", "n")] = true := by
  refine ⟨?_, by decide, by decide⟩
  simp [finalize_parsing, dictGet, parseTFstring, List.find?]

/-! ## RAB message tags (constants.py lines 4-8; rab.py RAB.unique_tag lines
69-81 and RAB.fetch lines 83-123)

The tag set self.tags only ever grows: unique_tag adds the allocated tag and
no code path ever removes a tag (in particular RAB.fetch does not release its
tag after the response arrives).  unique_tag performs a linear scan starting
at TAG_REQ for a value not in the set, holding self.taglock. -/

def TAG_CONFIG : Nat := 100
def TAG_REQ : Nat := 101
def TAG_REQID_BASE : Nat := 102

/-- Linear scan of unique_tag: while tag in self.tags: tag += 1.  The fuel
argument is only a termination device; tags.card + 1 steps always suffice. -/
def findFreeTag : Nat → Finset Nat → Nat → Nat
  | 0, _, t => t
  | fuel + 1, tags, t => if t ∈ tags then findFreeTag fuel tags (t + 1) else t

/-- Embedding of RAB.unique_tag: find the first free tag at or above TAG_REQ,
record it in the in-use set, and return it. -/
def unique_tag (tags : Finset Nat) : Nat × Finset Nat :=
  let t := findFreeTag (tags.card + 1) tags TAG_REQ
  (t, insert t tags)

theorem findFreeTag_not_mem (fuel : Nat) (tags : Finset Nat) :
    ∀ t, (tags.filter (t ≤ ·)).card < fuel → findFreeTag fuel tags t ∉ tags := by
  induction fuel with
  | zero => intro t h; omega
  | succ fuel ih =>
    intro t h
    by_cases hmem : t ∈ tags
    · simp only [findFreeTag, if_pos hmem]
      refine ih (t + 1) ?_
      have hsub : tags.filter ((t + 1) ≤ ·) ⊆ (tags.filter (t ≤ ·)).erase t := by
        intro x hx
        simp only [Finset.mem_filter] at hx
        refine Finset.mem_erase.mpr ⟨by omega, Finset.mem_filter.mpr ⟨hx.1, by omega⟩⟩
      have hcard := Finset.card_le_card hsub
      have htmem : t ∈ tags.filter (t ≤ ·) := Finset.mem_filter.mpr ⟨hmem, le_refl t⟩
      have herase := Finset.card_erase_of_mem htmem
      have hpos : 0 < (tags.filter (t ≤ ·)).card := Finset.card_pos.mpr ⟨t, htmem⟩
      omega
    · simpa [findFreeTag, if_neg hmem] using hmem

theorem unique_tag_fresh (tags : Finset Nat) : (unique_tag tags).1 ∉ tags := by
  apply findFreeTag_not_mem
  have hsub : tags.filter (TAG_REQ ≤ ·) ⊆ tags := Finset.filter_subset _ _
  have hcard := Finset.card_le_card hsub
  omega

theorem findFreeTag_ge (fuel : Nat) (tags : Finset Nat) (t : Nat) :
    t ≤ findFreeTag fuel tags t := by
  induction fuel generalizing t with
  | zero => simp [findFreeTag]
  | succ fuel ih =>
    by_cases hmem : t ∈ tags
    · simp only [findFreeTag, if_pos hmem]
      exact le_trans (by omega) (ih (t + 1))
    · simp [findFreeTag, if_neg hmem]

/-- Trace of the tags returned by k successive unique_tag calls starting
from the in-use set tags.  The serialization order is the order in which the
calls acquire self.taglock. -/
def tagTraceFrom : Nat → Finset Nat → List Nat
  | 0, _ => []
  | k + 1, tags =>
    let r := unique_tag tags
    r.1 :: tagTraceFrom k r.2

/-- Tags returned by the first k unique_tag calls of a RAB (self.tags starts
empty in RAB.__init__, rab.py line 41). -/
def tagTrace (k : Nat) : List Nat := tagTraceFrom k ∅

theorem tagTraceFrom_fresh (k : Nat) (tags : Finset Nat) :
    (tagTraceFrom k tags).Nodup ∧ ∀ t ∈ tagTraceFrom k tags, t ∉ tags := by
  induction k generalizing tags with
  | zero => simp [tagTraceFrom]
  | succ k ih =>
    obtain ⟨hnd, hfresh⟩ := ih (unique_tag tags).2
    refine ⟨List.nodup_cons.mpr ⟨fun hmem => ?_, hnd⟩, ?_⟩
    · exact (hfresh _ hmem) (by simp [unique_tag])
    · intro t ht
      rcases List.mem_cons.mp ht with rfl | htl
      · exact unique_tag_fresh tags
      · intro hmem
        exact (hfresh t htl) (by simp [unique_tag, hmem])

theorem tagTraceFrom_ge (k : Nat) (tags : Finset Nat) :
    ∀ t ∈ tagTraceFrom k tags, TAG_REQ ≤ t := by
  induction k generalizing tags with
  | zero => intro t ht; simp [tagTraceFrom] at ht
  | succ k ih =>
    intro t ht
    rcases List.mem_cons.mp ht with rfl | htl
    · exact findFreeTag_ge _ _ _
    · exact ih _ t htl

/-- C8: correlation tags issued by RAB.unique_tag are unique for the lifetime
of the process: over any number k of serialized unique_tag calls, no call
returns a value returned by an earlier call, and every issued tag is at least
TAG_REQ.  Since no code path ever removes a tag from self.tags, an issued tag
is in particular never reused while its RPC is outstanding. -/
theorem unique_tag_trace_nodup (k : Nat) :
    (tagTrace k).Nodup ∧ (tagTrace k).all (fun t => TAG_REQ ≤ t) := by
  refine ⟨(tagTraceFrom_fresh k ∅).1, ?_⟩
  rw [List.all_eq_true]
  intro t ht
  simpa using tagTraceFrom_ge k ∅ t ht

/-! ## Outbound request path (rab.py RAB.fetch lines 83-123 and the listener,
process_incoming lines 187-204 / process_outstanding lines 206-230)

RAB.fetch allocates reqtag = self.unique_tag(), sends the REQUEST on message
tag TAG_REQ with payload (capability, reqtag), and then blocks receiving on
message tag reqtag.  The remote listener receives the payload and sends its
RESPONSE back on exactly the received payload tag. -/

/-- Message-tag usage of one outbound RAB.fetch call: the tag the REQUEST is
sent on, the correlation tag placed in the payload, and the tag the response
is awaited (and sent) on. -/
structure OutboundTags where
  requestSentOn : Nat
  correlation : Nat
  responseOn : Nat
deriving DecidableEq

/-- Embedding of the tag bookkeeping of RAB.fetch for one remote request. -/
def rab_fetch_tags (tags : Finset Nat) : OutboundTags × Finset Nat :=
  let r := unique_tag tags
  ({ requestSentOn := TAG_REQ, correlation := r.1, responseOn := r.1 }, r.2)

/-- C9: the first correlation tag a RAB allocates (self.tags starts empty) is
exactly TAG_REQ = 101, the same tag value that marks inbound REQUEST
messages, so the RESPONSE to the first outstanding outbound request travels
on the REQUEST tag; the constant TAG_REQID_BASE = 102, reserved as the base
of the response-tag block, is not where allocation starts. -/
theorem first_tag_collides_with_TAG_REQ :
    (unique_tag ∅).1 = TAG_REQ
    ∧ (rab_fetch_tags ∅).1.responseOn = TAG_REQ
    ∧ (rab_fetch_tags ∅).1.responseOn = (rab_fetch_tags ∅).1.requestSentOn
    ∧ TAG_REQ = 101
    ∧ TAG_REQID_BASE = 102
    ∧ (unique_tag ∅).1 ≠ TAG_REQID_BASE := by
  refine ⟨?_, ?_, rfl, rfl, rfl, ?_⟩ <;>
    simp [unique_tag, rab_fetch_tags, findFreeTag, TAG_REQ, TAG_REQID_BASE]

/-! ## Component fetch (components.py, ComponentBase.fetch, lines 224-283)

fetch looks the capability up in the shared capability table (KeyError there
becomes CapabilityNotFound) and forwards the request to the providing
component.  At the provider, the caller takes the provider's condition
variable, and if the provider's status is still 0 (PENDING, components.py
line 273) it calls condition.wait(), blocking until the provider's wrapper
notifies.  After that, status different from 1 raises a RuntimeError ("wait()
returned with non-success status", the ProducerFailed-style error), and
status 1 returns self.results[capability].

We model the table as a map from capability name to provider id; status0
gives each provider's status at the moment fetch inspects it, and statusWait
gives the status observed after condition.wait() returns (by the wrapper
spec this is the provider's terminal status). -/

inductive FetchErr where
  | capabilityNotFound
  | producerFailed
  | keyError
deriving DecidableEq

/-- Result of one fetch call: whether condition.wait() was entered (the call
blocked), and the returned value or raised error. -/
structure FetchOut where
  waited : Bool
  result : Except FetchErr Val

/-- Lookup in a capability table keyed by name. -/
def tblLookup (tbl : List (String × Nat)) (cap : String) : Option Nat :=
  (tbl.find? (fun p => p.1 = cap)).map (·.2)

/-- Shallow embedding of ComponentBase.fetch. -/
def fetch (tbl : List (String × Nat)) (status0 statusWait : Nat → Nat)
    (results : Nat → Dict) (cap : String) : FetchOut :=
  match tblLookup tbl cap with
  | none => { waited := false, result := .error .capabilityNotFound }
  | some provider =>
    let s0 := status0 provider
    let s := if s0 = 0 then statusWait provider else s0
    { waited := decide (s0 = 0)
      result :=
        if s ≠ 1 then .error .producerFailed
        else
          match dictGet (results provider) cap with
          | some v => .ok v
          | none => .error .keyError }

/-- Effective status a fetch observes: the status after the optional wait. -/
def effStatus (status0 statusWait : Nat → Nat) (p : Nat) : Nat :=
  if status0 p = 0 then statusWait p else status0 p

/-- C2: fetch of a name not in the capability table raises CapabilityNotFound;
fetch whose producer's status after the wait is not SUCCESS raises the
ProducerFailed-style RuntimeError instead of returning a value; and fetch
whose producer reached SUCCESS returns the value the producer published for
that capability. -/
theorem fetch_spec (tbl : List (String × Nat)) (status0 statusWait : Nat → Nat)
    (results : Nat → Dict) (cap : String) :
    (tblLookup tbl cap = none →
      fetch tbl status0 statusWait results cap
        = { waited := false, result := .error .capabilityNotFound })
    ∧ (∀ p, tblLookup tbl cap = some p → effStatus status0 statusWait p ≠ 1 →
        (fetch tbl status0 statusWait results cap).result = .error .producerFailed)
    ∧ (∀ p v, tblLookup tbl cap = some p → effStatus status0 statusWait p = 1 →
        dictGet (results p) cap = some v →
        (fetch tbl status0 statusWait results cap).result = .ok v) := by
  refine ⟨fun h => by simp [fetch, h], ?_, ?_⟩
  · intro p hp hs
    simp only [fetch, hp]
    rw [if_pos (by simpa [effStatus] using hs)]
  · intro p v hp hs hv
    simp only [fetch, hp]
    rw [if_neg (by simpa [effStatus] using hs), hv]

/-- Witness for fetch_spec at concrete inputs: a producer that terminated in
FAILURE (status 2) makes fetch raise the ProducerFailed-style error. -/
theorem fetch_spec_witness :
    (fetch [("cap", 0)] (fun _ => 2) (fun _ => 2) (fun _ => [("cap", "v")]) "cap").result
      = Except.error FetchErr.producerFailed :=
  (fetch_spec [("cap", 0)] (fun _ => 2) (fun _ => 2) (fun _ => [("cap", "v")]) "cap").2.1
    0 (by decide) (by decide)

/-! ## The general pseudo-component (components.py, GlobalParamsComponent,
lines 342-415, and ComponentBase.__init__, lines 144-167)

ComponentBase.__init__ sets self.status = 0 (PENDING), self.results = {} and
self.params = {}.  GlobalParamsComponent.__init__ additionally registers the
capability "general" and stores self.params itself (a reference, not a copy)
as the result for "general".  Its run_component is not a no-op: it rewrites
ModelInterface and DBXMLlib through util.abspath (raising KeyError if either
is absent), fills in defaults for inputdir and rgnconfig, and returns 0.

To make the reference semantics of the results entry observable we model a
small heap of dict objects: self.params lives at heap reference paramsRef,
and results maps "general" to that same reference. -/

/-- Heap of Python dict objects; a reference is an index. -/
def heapGet (h : List Dict) (r : Nat) : Dict := (h.get? r).getD []

def heapSet (h : List Dict) (r : Nat) (d : Dict) : List Dict := h.set r d

structure GPState where
  status : Nat
  heap : List Dict
  paramsRef : Nat
  resultsRefs : List (String × Nat)
deriving DecidableEq

/-- State of a GlobalParamsComponent right after __init__: status PENDING,
an empty params dict, and the results entry for "general" aliasing the
params dict (components.py line 387: a reference copy). -/
def gpInit : GPState :=
  { status := 0, heap := [[]], paramsRef := 0, resultsRefs := [("general", 0)] }

/-- Embedding of ComponentBase.addparam (components.py lines 301-309): an
in-place update of the params dict. -/
def addparam (st : GPState) (k : String) (v : Val) : GPState :=
  { st with
    heap := heapSet st.heap st.paramsRef (dictSet (heapGet st.heap st.paramsRef) k v) }

/-- A sequence of addparam calls (the config parser's population of params). -/
def applyAddparams (st : GPState) (kvs : List (String × Val)) : GPState :=
  kvs.foldl (fun s kv => addparam s kv.1 kv.2) st

/-- The dict a fetch of "general" returns: the results entry dereferenced at
fetch time. -/
def fetchGeneralVal (st : GPState) : Option Dict :=
  ((st.resultsRefs.find? (fun p => p.1 = "general")).map (·.2)).map (heapGet st.heap)

/-- Embedding of GlobalParamsComponent.run_component (components.py lines
396-415) acting on the general params dict.  abspath stands for
util.abspath (the util module is not part of the embedded sources); its
second argument is the optional default base directory. -/
def gpRunDict (abspath : String → Option String → String) (cwd : String)
    (g : Dict) : Except Unit Dict :=
  match dictGet g "ModelInterface" with
  | none => .error ()
  | some mi =>
    let g1 := dictSet g "ModelInterface" (abspath mi none)
    match dictGet g1 "DBXMLlib" with
    | none => .error ()
    | some db =>
      let g2 := dictSet g1 "DBXMLlib" (abspath db none)
      let inputdir := (dictGet g2 "inputdir").getD "./input-data"
      let inputdirAbs := abspath inputdir (some cwd)
      let g3 := dictSet g2 "inputdir" inputdirAbs
      let rgnconfig := (dictGet g3 "rgnconfig").getD "rgn14"
      .ok (dictSet g3 "rgnconfig" (abspath rgnconfig (some inputdirAbs)))

/-- run_component reads self.results['general'] and rewrites it in place. -/
def gpRun (abspath : String → Option String → String) (cwd : String)
    (st : GPState) : Except Unit GPState :=
  match (st.resultsRefs.find? (fun p => p.1 = "general")).map (·.2) with
  | none => .error ()
  | some r =>
    match gpRunDict abspath cwd (heapGet st.heap r) with
    | .error e => .error e
    | .ok g' => .ok { st with heap := heapSet st.heap r g' }

/-- C3 counterexample: the general pseudo-component does not start in
SUCCESS.  After GlobalParamsComponent.__init__ its status is 0 (PENDING, set
by ComponentBase.__init__ and never changed during construction), so a fetch
of "general" issued before its run has executed takes the waiting branch of
ComponentBase.fetch (condition.wait()) instead of returning immediately. -/
theorem general_starts_pending_counterexample :
    gpInit.status = 0 ∧ ¬gpInit.status = 1
    ∧ (fetch [("general", 0)] (fun _ => gpInit.status) (fun _ => 1)
        (fun _ => (fetchGeneralVal gpInit).getD []) "general").waited = true := by
  decide

/-- Folding a list of key/value pairs into a dict by repeated assignment. -/
def paramsFold (kvs : List (String × Val)) (d : Dict) : Dict :=
  kvs.foldl (fun d kv => dictSet d kv.1 kv.2) d

theorem applyAddparams_state (kvs : List (String × Val)) (d : Dict) :
    applyAddparams
        { status := 0, heap := [d], paramsRef := 0, resultsRefs := [("general", 0)] }
        kvs
      = { status := 0, heap := [paramsFold kvs d], paramsRef := 0,
          resultsRefs := [("general", 0)] } := by
  induction kvs generalizing d with
  | nil => rfl
  | cons kv rest ih =>
    show applyAddparams
        (addparam { status := 0, heap := [d], paramsRef := 0,
                    resultsRefs := [("general", 0)] } kv.1 kv.2) rest = _
    have haddp :
        addparam { status := 0, heap := [d], paramsRef := 0,
                   resultsRefs := [("general", 0)] } kv.1 kv.2
          = { status := 0, heap := [dictSet d kv.1 kv.2], paramsRef := 0,
              resultsRefs := [("general", 0)] } := rfl
    rw [haddp, ih (dictSet d kv.1 kv.2)]
    rfl

theorem gpInit_shape :
    gpInit = { status := 0, heap := [[]], paramsRef := 0,
               resultsRefs := [("general", 0)] } := rfl

theorem fetchGeneralVal_shape (d : Dict) :
    fetchGeneralVal { status := 0, heap := [d], paramsRef := 0,
                      resultsRefs := [("general", 0)] } = some d := by
  simp [fetchGeneralVal, heapGet, List.find?]

/-- C10: the value published under the 'general' capability is a reference to
the live parameter map, not a snapshot.  An addparam performed after
construction is observable in the dict returned by any later fetch of
'general', and the in-place rewrites performed by run_component are likewise
observable: mapping fetch over the run's outcome equals running the dict
transformation on the previously fetched dict. -/
theorem general_is_reference (kvs : List (String × Val)) (k : String) (v : Val)
    (abspath : String → Option String → String) (cwd : String) :
    ((fetchGeneralVal (addparam (applyAddparams gpInit kvs) k v)).bind
        (fun d => dictGet d k) = some v)
    ∧ ((gpRun abspath cwd (applyAddparams gpInit kvs)).map fetchGeneralVal
        = (gpRunDict abspath cwd
            ((fetchGeneralVal (applyAddparams gpInit kvs)).getD [])).map some) := by
  rw [gpInit_shape, applyAddparams_state kvs []]
  constructor
  · have haddp :
        addparam { status := 0, heap := [paramsFold kvs []], paramsRef := 0,
                   resultsRefs := [("general", 0)] } k v
          = { status := 0, heap := [dictSet (paramsFold kvs []) k v], paramsRef := 0,
              resultsRefs := [("general", 0)] } := rfl
    rw [haddp, fetchGeneralVal_shape]
    simp [dictGet_dictSet_self]
  · rw [fetchGeneralVal_shape]
    have hfind :
        ((([("general", 0)] : List (String × Nat)).find?
            (fun p => p.1 = "general")).map (·.2)) = some 0 := by decide
    have hget : heapGet [paramsFold kvs []] 0 = paramsFold kvs [] := rfl
    simp only [gpRun, hfind, hget]
    cases hE : gpRunDict abspath cwd (paramsFold kvs []) with
    | error e => simp only [Option.getD_some, hE, Except.map]
    | ok g' =>
      have hset : heapSet [paramsFold kvs []] 0 g' = [g'] := rfl
      simp only [Option.getD_some, hE, Except.map, hset, fetchGeneralVal_shape]

/-- C3 amended: the general pseudo-component is constructed in PENDING
(status 0), exactly like every other component; its body is not a no-op (it
resolves ModelInterface, DBXMLlib, inputdir and rgnconfig paths in place).
A fetch of 'general' issued while the component is still PENDING enters
condition.wait() (it blocks) instead of returning immediately; 'general'
becomes readable without blocking only after run_component has returned 0,
whereupon the wrapper sets status SUCCESS and a fetch returns the published
parameter dict without waiting. -/
theorem general_pending_spec (kvs : List (String × Val))
    (statusWait : Nat → Nat) (results : Nat → Dict)
    (g : Dict) (mi db : Val)
    (abspath : String → Option String → String) (cwd : String)
    (hmi : dictGet g "ModelInterface" = some mi)
    (hdb : dictGet g "DBXMLlib" = some db) :
    gpInit.status = 0
    ∧ (applyAddparams gpInit kvs).status = 0
    ∧ (fetch [("general", 0)] (fun _ => 0) statusWait results "general").waited = true
    ∧ (∃ g', gpRunDict abspath cwd g = .ok g')
    ∧ (run_component_wrapper (BodyOutcome.ret 0)).status = 1
    ∧ (∀ d, (fetch [("general", 0)] (fun _ => 1) statusWait
              (fun _ => d) "general").waited = false) := by
  refine ⟨rfl, ?_, ?_, ?_, rfl, ?_⟩
  · rw [gpInit_shape, applyAddparams_state kvs []]
  · simp [fetch, tblLookup, List.find?]
  · unfold gpRunDict
    rw [hmi]
    have h2 : dictGet (dictSet g "ModelInterface" (abspath mi none)) "DBXMLlib"
        = some db := by
      rw [dictGet_dictSet_ne g "ModelInterface" "DBXMLlib" (abspath mi none)
            (by decide)]
      exact hdb
    simp only [h2]
    exact ⟨_, rfl⟩
  · intro d
    simp [fetch, tblLookup, List.find?]

/-- Witness for general_pending_spec at a concrete parameter dict providing
ModelInterface and DBXMLlib. -/
theorem general_pending_spec_witness :
    gpInit.status = 0
    ∧ (applyAddparams gpInit []).status = 0
    ∧ (fetch [("general", 0)] (fun _ => 0) (fun _ => 1) (fun _ => []) "general").waited
        = true
    ∧ (∃ g', gpRunDict (fun s _ => s) "/"
        [("ModelInterface", "mi"), ("DBXMLlib", "db")] = .ok g')
    ∧ (run_component_wrapper (BodyOutcome.ret 0)).status = 1
    ∧ (∀ d, (fetch [("general", 0)] (fun _ => 1) (fun _ => 1)
              (fun _ => d) "general").waited = false) :=
  general_pending_spec [] (fun _ => 1) (fun _ => [])
    [("ModelInterface", "mi"), ("DBXMLlib", "db")] "mi" "db"
    (fun s _ => s) "/" (by decide) (by decide)

/-! ## Orchestrator, single-process path (cassandra_main.py, main, lines
70-174, and bootstrap_sp, lines 21-65)

bootstrap_sp instantiates one component per configuration section, the
Global section included, and main then calls component.run() on every
component in the list: each run() starts a worker thread executing
run_component_wrapper (components.py lines 169-174).  After joining all
threads, main counts the components whose status is not 1; with no failure
it returns nfail = 0, otherwise it raises RuntimeError.

For a configuration whose only section is Global, the component list is a
single GlobalParamsComponent whose params were populated from the section. -/

structure MainRun where
  threadsStarted : Nat
  exit : Except Unit Nat

/-- Embedding of the thread/aggregation logic of main over the outcomes of
the components' bodies. -/
def main_sp (comps : List BodyOutcome) : MainRun :=
  let statuses := comps.map (fun oc => (run_component_wrapper oc).status)
  let nfail := (statuses.filter (fun s => s ≠ 1)).length
  { threadsStarted := comps.length
    exit := if nfail = 0 then .ok nfail else .error () }

/-- Body outcome of the GlobalParamsComponent whose params dict was built
from the Global config section: run_component returns 0 on success, and any
KeyError escapes as an exception. -/
def gpOutcome (abspath : String → Option String → String) (cwd : String)
    (g : List (String × Val)) : BodyOutcome :=
  match gpRun abspath cwd (applyAddparams gpInit g) with
  | .ok _ => .ret 0
  | .error _ => .exn

/-- main for a configuration whose only section is Global. -/
def main_onlyGlobal (abspath : String → Option String → String) (cwd : String)
    (g : List (String × Val)) : MainRun :=
  main_sp [gpOutcome abspath cwd g]

/-- C6 counterexample: with a configuration consisting only of a [Global]
section (zero real components), main does start a worker thread: the Global
pseudo-component is run like any other component, so one thread is started,
contradicting the claim that main returns 0 without starting any worker
thread.  (With a Global section providing ModelInterface and DBXMLlib the
run succeeds and main indeed returns 0, but on one started thread.) -/
theorem main_onlyGlobal_counterexample :
    (main_onlyGlobal (fun s _ => s) "/"
        [("ModelInterface", "mi"), ("DBXMLlib", "db")]).exit = Except.ok 0
    ∧ (main_onlyGlobal (fun s _ => s) "/"
        [("ModelInterface", "mi"), ("DBXMLlib", "db")]).threadsStarted = 1
    ∧ ¬(main_onlyGlobal (fun s _ => s) "/"
        [("ModelInterface", "mi"), ("DBXMLlib", "db")]).threadsStarted = 0 := by
  refine ⟨rfl, rfl, by decide⟩

theorem dictGet_dictSet_cases (d : Dict) (a k : String) (b : Val) :
    dictGet (dictSet d a b) k = if k = a then some b else dictGet d k := by
  by_cases h : k = a
  · subst h; rw [dictGet_dictSet_self, if_pos rfl]
  · rw [dictGet_dictSet_ne d a k b h, if_neg h]

theorem dictGet_paramsFold_isSome (kvs : List (String × Val)) (k : String) :
    ∀ d : Dict, (dictGet (paramsFold kvs d) k).isSome
      = ((dictGet d k).isSome || k ∈ kvs.map Prod.fst) := by
  induction kvs with
  | nil => intro d; simp [paramsFold]
  | cons kv rest ih =>
    intro d
    show (dictGet (paramsFold rest (dictSet d kv.1 kv.2)) k).isSome = _
    rw [ih (dictSet d kv.1 kv.2), dictGet_dictSet_cases]
    by_cases h : k = kv.1
    · simp [h]
    · have hbeq : (k == kv.1) = false := beq_eq_false_iff_ne.mpr h
      simp [h, hbeq]

theorem gpRunDict_isOk (abspath : String → Option String → String) (cwd : String)
    (g : Dict) :
    (∃ g', gpRunDict abspath cwd g = .ok g')
      ↔ ((dictGet g "ModelInterface").isSome ∧ (dictGet g "DBXMLlib").isSome) := by
  unfold gpRunDict
  cases hmi : dictGet g "ModelInterface" with
  | none => simp [hmi]
  | some mi =>
    have h2 : dictGet (dictSet g "ModelInterface" (abspath mi none)) "DBXMLlib"
        = dictGet g "DBXMLlib" :=
      dictGet_dictSet_ne g "ModelInterface" "DBXMLlib" (abspath mi none) (by decide)
    cases hdb : dictGet g "DBXMLlib" with
    | none => simp [h2, hdb]
    | some db => simp [h2, hdb]

/-- C6 amended: for a configuration whose only section is [Global], main
starts exactly one worker thread (the GlobalParamsComponent is run like any
other component); it returns 0 exactly when that component's run succeeds,
which happens iff the Global section supplies both ModelInterface and
DBXMLlib; otherwise run_component raises KeyError and main raises
RuntimeError instead of returning. -/
theorem main_onlyGlobal_spec (abspath : String → Option String → String)
    (cwd : String) (g : List (String × Val)) :
    (main_onlyGlobal abspath cwd g).threadsStarted = 1
    ∧ ((main_onlyGlobal abspath cwd g).exit = Except.ok 0
        ↔ ("ModelInterface" ∈ g.map Prod.fst ∧ "DBXMLlib" ∈ g.map Prod.fst)) := by
  refine ⟨rfl, ?_⟩
  have hrun : gpRun abspath cwd (applyAddparams gpInit g)
      = (gpRunDict abspath cwd (paramsFold g [])).map
          (fun g' => { status := 0, heap := [g'], paramsRef := 0,
                       resultsRefs := [("general", 0)] }) := by
    rw [gpInit_shape, applyAddparams_state g []]
    have hfind :
        ((([("general", 0)] : List (String × Nat)).find?
            (fun p => p.1 = "general")).map (·.2)) = some 0 := by decide
    have hget : heapGet [paramsFold g []] 0 = paramsFold g [] := rfl
    simp only [gpRun, hfind, hget]
    cases hE : gpRunDict abspath cwd (paramsFold g []) with
    | error e => simp only [Except.map]
    | ok g' =>
      have hset : heapSet [paramsFold g []] 0 g' = [g'] := rfl
      simp only [Except.map, hset]
  have hkeys :
      (∃ g', gpRunDict abspath cwd (paramsFold g []) = .ok g')
        ↔ ("ModelInterface" ∈ g.map Prod.fst ∧ "DBXMLlib" ∈ g.map Prod.fst) := by
    rw [gpRunDict_isOk]
    rw [dictGet_paramsFold_isSome g "ModelInterface" [],
        dictGet_paramsFold_isSome g "DBXMLlib" []]
    simp [dictGet]
  rw [← hkeys]
  cases hE : gpRunDict abspath cwd (paramsFold g []) with
  | error e =>
    have houtcome : gpOutcome abspath cwd g = BodyOutcome.exn := by
      unfold gpOutcome
      rw [hrun, hE]
      rfl
    constructor
    · intro hexit
      exfalso
      revert hexit
      simp [main_onlyGlobal, main_sp, houtcome, run_component_wrapper, lastStatus]
    · rintro ⟨g', hg'⟩
      cases hg'
  | ok g' =>
    have houtcome : gpOutcome abspath cwd g = BodyOutcome.ret 0 := by
      unfold gpOutcome
      rw [hrun, hE]
      rfl
    constructor
    · intro _
      exact ⟨g', rfl⟩
    · intro _
      simp [main_onlyGlobal, main_sp, houtcome, run_component_wrapper, lastStatus]

/-! ## Capability registration (components.py, ComponentBase.addcapability,
lines 311-315, and rab.py, RAB.addremote, lines 56-67)

addcapability raises a RuntimeError on a name already in the capability
table and otherwise inserts the registering component.  addremote iterates
over the capability names received from a remote rank, raising on the first
name already present and otherwise installing the RAB itself in the
capability table and recording the producing rank in remote_caps.  Because
the loop mutates the shared dicts as it goes, a raise part-way through
leaves the entries added for earlier names in place.

The Bool in each result records whether the call raised. -/

inductive Handle where
  | comp (c : Nat)
  | rab
deriving DecidableEq

abbrev CapTbl := List (String × Handle)

def tblLookupH (tbl : CapTbl) (cap : String) : Option Handle :=
  (tbl.find? (fun p => p.1 = cap)).map (·.2)

def tblMem (tbl : CapTbl) (cap : String) : Bool :=
  tbl.any (fun p => p.1 = cap)

/-- Embedding of ComponentBase.addcapability. -/
def addcapability (tbl : CapTbl) (self : Handle) (cap : String) : CapTbl × Bool :=
  if tblMem tbl cap then (tbl, true) else (tbl ++ [(cap, self)], false)

/-- Embedding of RAB.addremote: final capability table, final remote_caps
table, and whether the loop raised. -/
def addremote : CapTbl → List (String × Nat) → Nat → List String →
    CapTbl × List (String × Nat) × Bool
  | tbl, remote, _, [] => (tbl, remote, false)
  | tbl, remote, rank, c :: rest =>
    if tblMem tbl c then (tbl, remote, true)
    else addremote (tbl ++ [(c, Handle.rab)]) (remote ++ [(c, rank)]) rank rest

theorem tblLookupH_append_left (tbl : CapTbl) (c x : String) (h k : Handle)
    (hc : tblLookupH tbl c = some h) :
    tblLookupH (tbl ++ [(x, k)]) c = some h := by
  induction tbl with
  | nil => simp [tblLookupH, List.find?] at hc
  | cons p rest ih =>
    by_cases hp : p.1 = c
    · unfold tblLookupH at hc ⊢
      rw [List.find?_cons_of_pos _ (by simpa using hp)] at hc
      simp only [List.cons_append]
      rw [List.find?_cons_of_pos _ (by simpa using hp)]
      exact hc
    · unfold tblLookupH at hc ⊢
      rw [List.find?_cons_of_neg _ (by simpa using hp)] at hc
      simp only [List.cons_append]
      rw [List.find?_cons_of_neg _ (by simpa using hp)]
      exact ih hc

theorem tblLookupH_append_self (tbl : CapTbl) (c : String) (k : Handle)
    (hm : tblMem tbl c = false) :
    tblLookupH (tbl ++ [(c, k)]) c = some k := by
  induction tbl with
  | nil => simp [tblLookupH, List.find?]
  | cons p rest ih =>
    simp only [tblMem, List.any_cons, Bool.or_eq_false_iff,
      decide_eq_false_iff_not] at hm
    unfold tblLookupH
    simp only [List.cons_append]
    rw [List.find?_cons_of_neg _ (by simpa using hm.1)]
    exact ih (by simpa [tblMem] using hm.2)

theorem tblMem_append (tbl : CapTbl) (c x : String) (k : Handle) :
    tblMem (tbl ++ [(x, k)]) c = (tblMem tbl c || decide (x = c)) := by
  simp [tblMem, List.any_append]

theorem addremote_props (rank : Nat) :
    ∀ (caps : List String) (tbl : CapTbl) (remote : List (String × Nat)),
      (∀ c h, tblLookupH tbl c = some h →
        tblLookupH (addremote tbl remote rank caps).1 c = some h)
      ∧ ((addremote tbl remote rank caps).2.2 = false
          ↔ (caps.Nodup ∧ ∀ c ∈ caps, tblMem tbl c = false))
      ∧ ((addremote tbl remote rank caps).2.2 = false →
          ∀ c ∈ caps,
            tblLookupH (addremote tbl remote rank caps).1 c = some Handle.rab) := by
  intro caps
  induction caps with
  | nil =>
    intro tbl remote
    refine ⟨fun c h hc => hc, by simp [addremote], by simp [addremote]⟩
  | cons c rest ih =>
    intro tbl remote
    by_cases hm : tblMem tbl c = true
    · refine ⟨fun c0 h0 hc0 => by simpa [addremote, hm] using hc0, ?_, ?_⟩
      · simp only [addremote, hm, if_true]
        constructor
        · intro hfalse; cases hfalse
        · rintro ⟨-, hall⟩
          exact absurd (hall c (List.mem_cons_self c rest)) (by simp [hm])
      · intro hfalse
        rw [show (addremote tbl remote rank (c :: rest)).2.2 = true by
          simp [addremote, hm]] at hfalse
        cases hfalse
    · have hm' : tblMem tbl c = false := by
        cases hb : tblMem tbl c with
        | false => rfl
        | true => exact absurd hb hm
      have hstep : addremote tbl remote rank (c :: rest)
          = addremote (tbl ++ [(c, Handle.rab)]) (remote ++ [(c, rank)]) rank rest := by
        simp [addremote, hm']
      obtain ⟨ih1, ih2, ih3⟩ := ih (tbl ++ [(c, Handle.rab)]) (remote ++ [(c, rank)])
      rw [hstep]
      refine ⟨?_, ?_, ?_⟩
      · intro c0 h0 hc0
        exact ih1 c0 h0 (tblLookupH_append_left tbl c0 c h0 Handle.rab hc0)
      · rw [ih2]
        constructor
        · rintro ⟨hnd, hall⟩
          have hnotin : c ∉ rest := by
            intro hc
            have hx := hall c hc
            rw [tblMem_append] at hx
            simp at hx
          refine ⟨List.nodup_cons.mpr ⟨hnotin, hnd⟩, ?_⟩
          intro x hx
          rcases List.mem_cons.mp hx with rfl | hx'
          · exact hm'
          · have hx2 := hall x hx'
            rw [tblMem_append] at hx2
            exact (Bool.or_eq_false_iff.mp hx2).1
        · rintro ⟨hnd, hall⟩
          obtain ⟨hnotin, hnd'⟩ := List.nodup_cons.mp hnd
          refine ⟨hnd', ?_⟩
          intro x hx
          rw [tblMem_append]
          refine Bool.or_eq_false_iff.mpr
            ⟨hall x (List.mem_cons_of_mem _ hx), ?_⟩
          simp only [decide_eq_false_iff_not]
          intro hcx
          exact hnotin (hcx ▸ hx)
      · intro hfalse c0 hc0
        rcases List.mem_cons.mp hc0 with rfl | hc0'
        · exact ih1 c0 Handle.rab (tblLookupH_append_self tbl c0 Handle.rab hm')
        · exact ih3 hfalse c0 hc0'

/-- C7 counterexample: addremote does not leave the capability table
unchanged when it hits a duplicate.  Starting from a table owning "a", the
remote capability list ["b", "a"] raises on "a" (duplicate) but the entry
for "b" has already been installed, so the table after the failed call
differs from the table before it. -/
theorem addremote_partial_mutation_counterexample :
    (addremote [("a", Handle.comp 0)] [] 1 ["b", "a"]).2.2 = true
    ∧ ¬((addremote [("a", Handle.comp 0)] [] 1 ["b", "a"]).1
        = [("a", Handle.comp 0)])
    ∧ (addremote [("a", Handle.comp 0)] [] 1 ["b", "a"]).1
        = [("a", Handle.comp 0), ("b", Handle.rab)] := by
  decide

/-- C7 amended: addcapability of a name already in the capability table
raises and leaves the table unchanged, and a successful addcapability maps
the name to the registering handle.  addremote raises on the first received
name already present (or repeated in the received list); it never
overwrites an existing entry, but a raise part-way leaves the entries added
for names earlier in the list in place (so the table is not unchanged in
general); a successful addremote maps every received name to the RAB. -/
theorem registration_spec (tbl : CapTbl) (self : Handle) (cap : String)
    (rank : Nat) (caps : List String) (remote : List (String × Nat)) :
    (tblMem tbl cap = true → addcapability tbl self cap = (tbl, true))
    ∧ (tblMem tbl cap = false →
        addcapability tbl self cap = (tbl ++ [(cap, self)], false)
        ∧ tblLookupH (addcapability tbl self cap).1 cap = some self)
    ∧ (∀ c h, tblLookupH tbl c = some h →
        tblLookupH (addremote tbl remote rank caps).1 c = some h)
    ∧ ((addremote tbl remote rank caps).2.2 = false
        ↔ (caps.Nodup ∧ ∀ c ∈ caps, tblMem tbl c = false))
    ∧ ((addremote tbl remote rank caps).2.2 = false →
        ∀ c ∈ caps,
          tblLookupH (addremote tbl remote rank caps).1 c = some Handle.rab) := by
  obtain ⟨h1, h2, h3⟩ := addremote_props rank caps tbl remote
  refine ⟨?_, ?_, h1, h2, h3⟩
  · intro hm
    simp [addcapability, hm]
  · intro hm
    constructor
    · simp [addcapability, hm]
    · rw [show (addcapability tbl self cap).1 = tbl ++ [(cap, self)] by
        simp [addcapability, hm]]
      exact tblLookupH_append_self tbl cap self hm

/-- Witness for registration_spec at concrete inputs: registering "x" in an
empty table succeeds and maps "x" to the registering component. -/
theorem registration_spec_witness :
    addcapability [] (Handle.comp 0) "x" = ([("x", Handle.comp 0)], false)
    ∧ tblLookupH (addcapability [] (Handle.comp 0) "x").1 "x"
        = some (Handle.comp 0) :=
  (registration_spec [] (Handle.comp 0) "x" 1 [] []).2.1 (by decide)

/-! ## Multi-process assignment distribution (mp.py,
distribute_assignments_supervisor, lines 116-174; constants.py line 11)

The supervisor removes the mandatory Global section from the section list
(a RuntimeError when absent), computes each remaining section's weight as
config[s].get('mp.weight', 1.0), sorts the sections with Python's
sorted(key=weight, reverse=True), and deals them out round-robin over the
nproc ranks starting at the rank after the supervisor; every rank's
assignment dict starts with the Global section.

ConfigObj hands the supervisor raw STRING values for mp.weight, while the
default is the float 1.0, so the weight of a section is a Python value of
one of two kinds.  Python's sorted therefore compares string weights
lexicographically by code point (so "9" sorts above "10"), compares the
float default only with itself, and raises TypeError as soon as it
compares a string weight with the float default - which is unavoidable
whenever both kinds are present.  sorted is STABLE: sections whose weights
tie keep their original configuration order.

Python's stable sort is modelled by decorating each section with its
original index and sorting by a strict total order built from keyLt, a
total proxy for the partial Python comparison pyLt: the two agree wherever
pyLt is defined (pyLt_keyLt_agree), and the TypeError guard keeps the one
undefined case (mixed kinds) away from the sort. -/

/-- Python value of config[s].get('mp.weight', 1.0): either the raw string
from the configuration file, or the float default 1.0. -/
inductive PyWeight where
  | pstr (s : String)
  | pfloatOne
deriving DecidableEq

structure CfgSection where
  name : String
  mpWeight : Option String
deriving DecidableEq

/-- The weight value the supervisor obtains for a section. -/
def weightOf (s : CfgSection) : PyWeight :=
  match s.mpWeight with
  | some w => .pstr w
  | none => .pfloatOne

/-- Python comparison a < b on weight values: strings compare
lexicographically by code point, the float default only with itself, and a
string/float mix raises TypeError (the error case). -/
def pyLt : PyWeight → PyWeight → Except Unit Bool
  | .pstr x, .pstr y => .ok (decide (x.data < y.data))
  | .pfloatOne, .pfloatOne => .ok false
  | .pstr _, .pfloatOne => .error ()
  | .pfloatOne, .pstr _ => .error ()

/-- Total proxy for pyLt used to state the sort.  It agrees with pyLt
wherever pyLt is defined; on a string/float mix (which the TypeError guard
keeps away from the sort) it falls back to an arbitrary kind order, needed
only so the comparator is total and transitive. -/
def keyLt : PyWeight → PyWeight → Bool
  | .pstr x, .pstr y => decide (x.data < y.data)
  | .pfloatOne, .pfloatOne => false
  | .pfloatOne, .pstr _ => true
  | .pstr _, .pfloatOne => false

theorem pyLt_keyLt_agree (a b : PyWeight) (c : Bool) (h : pyLt a b = .ok c) :
    keyLt a b = c := by
  cases a <;> cases b <;> simp [pyLt, keyLt] at h ⊢ <;> simp [h]

/-- Python list.remove: drop the first occurrence; none when the name is
absent (the source raises, demanding a Global section). -/
def removeFirst (nm : String) : List CfgSection → Option (List CfgSection)
  | [] => none
  | s :: rest =>
    if s.name = nm then some rest
    else (removeFirst nm rest).map (s :: ·)

/-- Comparator realizing the source's stable descending sort on sections
decorated with their original position: b's weight below a's, or weights
tied (under keyLt ties coincide with equality, keyLt_tie_eq) and a
originally earlier. -/
def pyKeyLe (a b : Nat × CfgSection) : Prop :=
  keyLt (weightOf b.2) (weightOf a.2) = true
  ∨ (weightOf a.2 = weightOf b.2 ∧ a.1 ≤ b.1)

instance : DecidableRel pyKeyLe := fun a b => by
  unfold pyKeyLe
  infer_instance

/-- sorted(name_weight, key=weight, reverse=True) of mp.py line 154. -/
def pySortByWeightDesc (secs : List CfgSection) : List CfgSection :=
  (List.insertionSort pyKeyLe secs.enum).map Prod.snd

def SUPERVISOR_RANK : Nat := 0

/-- Both weight kinds present: some section carries mp.weight and some does
not.  Exactly then Python's sorted must compare a string with the float
default, raising TypeError. -/
def mixedWeights (secs : List CfgSection) : Bool :=
  (secs.any (fun s => s.mpWeight.isSome)) && (secs.any (fun s => s.mpWeight.isNone))

/-- The round-robin loop of mp.py lines 163-165: each section is appended
to the assignment of nextrank, and nextrank advances modulo nproc. -/
def rrAssign (nproc : Nat) : List CfgSection → Nat → List (List String) →
    List (List String)
  | [], _, asg => asg
  | s :: rest, r, asg =>
    rrAssign nproc rest ((r + 1) % nproc) (asg.set r (asg.getD r [] ++ [s.name]))

inductive DistErr where
  | missingGlobal
  | typeError
deriving DecidableEq

/-- Embedding of distribute_assignments_supervisor: the per-rank lists of
section names of each rank's assignment dict, in insertion order (so every
list starts with Global, mp.py lines 160-162); a RuntimeError when Global
is absent, and sorted's TypeError when string weights mix with the float
default. -/
def distribute_assignments_supervisor (config : List CfgSection) (nproc : Nat) :
    Except DistErr (List (List String)) :=
  match removeFirst "Global" config with
  | none => .error .missingGlobal
  | some secs =>
    if mixedWeights secs then .error .typeError
    else
      .ok (rrAssign nproc (pySortByWeightDesc secs)
        ((SUPERVISOR_RANK + 1) % nproc) (List.replicate nproc ["Global"]))

/-- Deterministic order on section names used to state the claim's
tie-break (lexicographic on the character list). -/
def nameLe (a b : String) : Prop := a.data < b.data ∨ a = b

instance : DecidableRel nameLe := fun a b => by
  unfold nameLe
  infer_instance

/-- Numeric reading of a weight as the claim understands it: mp.weight is a
numeric value, default 1.0.  Digit strings are read as decimal numbers;
only such weights appear in the configurations the claim is tested on. -/
def parseNumWeight : Option String → ℚ
  | none => 1
  | some s => ((s.data.foldl (fun n c => n * 10 + (c.toNat - 48)) 0 : Nat) : ℚ)

/-- Comparator stated by the claim: descending numeric weight, ties between
equal weights broken by section name. -/
def claimKeyLe (a b : CfgSection) : Prop :=
  parseNumWeight b.mpWeight < parseNumWeight a.mpWeight
  ∨ (parseNumWeight a.mpWeight = parseNumWeight b.mpWeight ∧ nameLe a.name b.name)

instance : DecidableRel claimKeyLe := fun a b => by
  unfold claimKeyLe
  infer_instance

/-- The distribution the claim describes: numeric descending weights with
name tie-break, never raising on mixed kinds. -/
def distribute_assignments_claim (config : List CfgSection) (nproc : Nat) :
    Except DistErr (List (List String)) :=
  match removeFirst "Global" config with
  | none => .error .missingGlobal
  | some secs =>
    .ok (rrAssign nproc (List.insertionSort claimKeyLe secs)
      ((SUPERVISOR_RANK + 1) % nproc) (List.replicate nproc ["Global"]))

instance {ε α : Type} [DecidableEq ε] [DecidableEq α] : DecidableEq (Except ε α)
  | .ok x, .ok y =>
    match decEq x y with
    | isTrue h => isTrue (h ▸ rfl)
    | isFalse h => isFalse (fun hc => h (by cases hc; rfl))
  | .error e, .error f =>
    match decEq e f with
    | isTrue h => isTrue (h ▸ rfl)
    | isFalse h => isFalse (fun hc => h (by cases hc; rfl))
  | .ok _, .error _ => isFalse (fun hc => by cases hc)
  | .error _, .ok _ => isFalse (fun hc => by cases hc)

/-- Configuration with two equal-weight sections listed as b before a. -/
def c5cfg : List CfgSection :=
  [{ name := "Global", mpWeight := none },
   { name := "b", mpWeight := none },
   { name := "a", mpWeight := none }]

/-- Configuration whose string weights "9" and "10" compare
lexicographically in the source but numerically in the claim. -/
def c5cfg9 : List CfgSection :=
  [{ name := "Global", mpWeight := none },
   { name := "x", mpWeight := some "9" },
   { name := "y", mpWeight := some "10" }]

/-- Configuration mixing a string weight with the absent-weight default. -/
def c5cfgMixed : List CfgSection :=
  [{ name := "Global", mpWeight := none },
   { name := "x", mpWeight := some "2" },
   { name := "y", mpWeight := none }]

/-- C5 counterexample, three divergences from the claim's rule.  (1) String
weights sort lexicographically, not numerically: with weights "9" and "10"
the source puts "9" first ("10" < "9" by code points), the claim puts 10
first, and on two ranks the sections land on different peers.  (2) A
section with mp.weight mixed with one without raises TypeError in sorted
(str/float comparison), so no assignment is produced at all, while the
claim's rule yields one.  (3) Ties between equal weights keep original
configuration order (sorted is stable), not section-name order: with
equal-weight sections b before a the two rules swap the peers. -/
theorem distribute_weights_counterexample :
    distribute_assignments_supervisor c5cfg9 2
        = .ok [["Global", "y"], ["Global", "x"]]
    ∧ distribute_assignments_claim c5cfg9 2
        = .ok [["Global", "x"], ["Global", "y"]]
    ∧ distribute_assignments_supervisor c5cfg9 2
        ≠ distribute_assignments_claim c5cfg9 2
    ∧ distribute_assignments_supervisor c5cfgMixed 2 = .error DistErr.typeError
    ∧ (distribute_assignments_claim c5cfgMixed 2).isOk = true
    ∧ distribute_assignments_supervisor c5cfg 2
        = .ok [["Global", "a"], ["Global", "b"]]
    ∧ distribute_assignments_claim c5cfg 2
        = .ok [["Global", "b"], ["Global", "a"]] := by
  refine ⟨by decide, by decide, by decide, by decide, by decide, by decide, by decide⟩

theorem getD_set_self (l : List (List String)) (r : Nat) (x d : List String)
    (h : r < l.length) : (l.set r x).getD r d = x := by
  simp [List.getD, List.getElem?_set_self', h]

theorem getD_set_ne (l : List (List String)) (r i : Nat) (x d : List String)
    (h : ¬ r = i) : (l.set r x).getD i d = l.getD i d := by
  simp [List.getD, List.getElem?_set_ne, h]

theorem getD_replicate_lt (n i : Nat) (a d : List String) (h : i < n) :
    (List.replicate n a).getD i d = a := by
  simp [List.getD, List.getElem?_replicate, h]

theorem rrAssign_length (nproc : Nat) :
    ∀ (secs : List CfgSection) (r : Nat) (asg : List (List String)),
      (rrAssign nproc secs r asg).length = asg.length := by
  intro secs
  induction secs with
  | nil => intro r asg; rfl
  | cons s rest ih =>
    intro r asg
    rw [show rrAssign nproc (s :: rest) r asg
        = rrAssign nproc rest ((r + 1) % nproc)
            (asg.set r (asg.getD r [] ++ [s.name])) from rfl]
    rw [ih]
    simp

/-- The names the round-robin loop deals to rank i when the remaining
sections are secs and the next rank to serve is r. -/
def peerSlice (nproc i : Nat) : List CfgSection → Nat → List String
  | [], _ => []
  | s :: rest, r =>
    (if r = i then [s.name] else [])
      ++ peerSlice nproc i rest ((r + 1) % nproc)

theorem rrAssign_getD (nproc : Nat) (hn : 0 < nproc) :
    ∀ (secs : List CfgSection) (r : Nat) (asg : List (List String)),
      r < nproc → asg.length = nproc → ∀ i,
      (rrAssign nproc secs r asg).getD i []
        = asg.getD i [] ++ peerSlice nproc i secs r := by
  intro secs
  induction secs with
  | nil => intro r asg hr hlen i; simp [rrAssign, peerSlice]
  | cons s rest ih =>
    intro r asg hr hlen i
    have hr' : (r + 1) % nproc < nproc := Nat.mod_lt _ hn
    have hlen' : (asg.set r (asg.getD r [] ++ [s.name])).length = nproc := by
      simpa using hlen
    rw [show rrAssign nproc (s :: rest) r asg
        = rrAssign nproc rest ((r + 1) % nproc)
            (asg.set r (asg.getD r [] ++ [s.name])) from rfl]
    rw [ih ((r + 1) % nproc) _ hr' hlen' i]
    by_cases hri : r = i
    · subst hri
      rw [getD_set_self _ _ _ _ (by omega)]
      simp [peerSlice]
    · rw [getD_set_ne _ _ _ _ _ hri]
      simp [peerSlice, hri]

theorem peerSlice_mem (nproc : Nat) (hn : 0 < nproc) :
    ∀ (secs : List CfgSection) (r j : Nat) (hj : j < secs.length),
      r < nproc →
      (secs.get ⟨j, hj⟩).name ∈ peerSlice nproc ((r + j) % nproc) secs r := by
  intro secs
  induction secs with
  | nil => intro r j hj; simp at hj
  | cons s rest ih =>
    intro r j hj hr
    cases j with
    | zero =>
      have hmod : (r + 0) % nproc = r := by
        rw [Nat.add_zero]
        exact Nat.mod_eq_of_lt hr
      rw [hmod]
      simp [peerSlice]
    | succ j =>
      have hj' : j < rest.length := Nat.succ_lt_succ_iff.mp hj
      have hmod : ((r + 1) % nproc + j) % nproc = (r + (j + 1)) % nproc := by
        rw [Nat.mod_add_mod]
        congr 1
        omega
      have hmem := ih ((r + 1) % nproc) j hj' (Nat.mod_lt _ hn)
      rw [hmod] at hmem
      have hget : ((s :: rest).get ⟨j + 1, hj⟩) = rest.get ⟨j, hj'⟩ := rfl
      rw [hget]
      exact List.mem_append.mpr (Or.inr hmem)

theorem peerSlice_count (nproc : Nat) (hn : 0 < nproc) (s : String) :
    ∀ (secs : List CfgSection) (r : Nat), r < nproc →
      (∑ i in Finset.range nproc, (peerSlice nproc i secs r).count s)
        = (secs.map (fun t => t.name)).count s := by
  intro secs
  induction secs with
  | nil => intro r hr; simp [peerSlice]
  | cons c rest ih =>
    intro r hr
    have h1 : ∀ i, (peerSlice nproc i (c :: rest) r).count s
        = (if r = i then ([c.name].count s) else 0)
          + (peerSlice nproc i rest ((r + 1) % nproc)).count s := by
      intro i
      show ((if r = i then [c.name] else [])
          ++ peerSlice nproc i rest ((r + 1) % nproc)).count s = _
      rw [List.count_append]
      by_cases hri : r = i
      · rw [if_pos hri, if_pos hri]
      · rw [if_neg hri, if_neg hri]
        simp
    have hsplit :
        (∑ i in Finset.range nproc, (peerSlice nproc i (c :: rest) r).count s)
          = (∑ i in Finset.range nproc, if r = i then ([c.name].count s) else 0)
            + (∑ i in Finset.range nproc,
                (peerSlice nproc i rest ((r + 1) % nproc)).count s) := by
      rw [← Finset.sum_add_distrib]
      exact Finset.sum_congr rfl (fun i _ => h1 i)
    rw [hsplit, Finset.sum_ite_eq, if_pos (Finset.mem_range.mpr hr),
        ih ((r + 1) % nproc) (Nat.mod_lt _ hn)]
    simp [List.count_cons]
    omega

theorem keyLt_trans {a b c : PyWeight} (h1 : keyLt a b = true)
    (h2 : keyLt b c = true) : keyLt a c = true := by
  cases a with
  | pstr x =>
    cases b with
    | pstr y =>
      cases c with
      | pstr z =>
        simp only [keyLt, decide_eq_true_eq] at h1 h2 ⊢
        exact lt_trans h1 h2
      | pfloatOne => simp [keyLt] at h2
    | pfloatOne => simp [keyLt] at h1
  | pfloatOne =>
    cases c with
    | pstr z => simp [keyLt]
    | pfloatOne =>
      cases b with
      | pstr y => simp [keyLt] at h2
      | pfloatOne => simp [keyLt] at h1

theorem keyLt_asymm {a b : PyWeight} (h : keyLt a b = true) :
    keyLt b a = false := by
  cases a with
  | pstr x =>
    cases b with
    | pstr y =>
      simp only [keyLt, decide_eq_true_eq] at h
      simp only [keyLt, decide_eq_false_iff_not]
      exact lt_asymm h
    | pfloatOne => simp [keyLt] at h
  | pfloatOne =>
    cases b with
    | pstr y => simp [keyLt]
    | pfloatOne => simp [keyLt] at h

theorem keyLt_tie_eq {a b : PyWeight} (h1 : keyLt a b = false)
    (h2 : keyLt b a = false) : a = b := by
  cases a with
  | pstr x =>
    cases b with
    | pstr y =>
      simp only [keyLt, decide_eq_false_iff_not] at h1 h2
      have hd : x.data = y.data := le_antisymm (not_lt.mp h2) (not_lt.mp h1)
      cases x
      cases y
      exact congrArg (fun d => PyWeight.pstr (String.mk d)) hd
    | pfloatOne => simp [keyLt] at h2
  | pfloatOne =>
    cases b with
    | pstr y => simp [keyLt] at h1
    | pfloatOne => rfl

theorem keyLt_irrefl (a : PyWeight) : keyLt a a = false := by
  cases a with
  | pstr x => simp [keyLt]
  | pfloatOne => rfl

instance : IsTrans (Nat × CfgSection) pyKeyLe := by
  refine ⟨fun a b c hab hbc => ?_⟩
  unfold pyKeyLe at hab hbc ⊢
  rcases hab with h1 | ⟨e1, i1⟩ <;> rcases hbc with h2 | ⟨e2, i2⟩
  · exact Or.inl (keyLt_trans h2 h1)
  · exact Or.inl (e2 ▸ h1)
  · exact Or.inl (e1.symm ▸ h2)
  · exact Or.inr ⟨e1.trans e2, le_trans i1 i2⟩

instance : IsTotal (Nat × CfgSection) pyKeyLe := by
  refine ⟨fun a b => ?_⟩
  unfold pyKeyLe
  cases hab : keyLt (weightOf b.2) (weightOf a.2) with
  | true => exact Or.inl (Or.inl rfl)
  | false =>
    cases hba : keyLt (weightOf a.2) (weightOf b.2) with
    | true => exact Or.inr (Or.inl rfl)
    | false =>
      have he : weightOf a.2 = weightOf b.2 := keyLt_tie_eq hba hab
      rcases Nat.le_total a.1 b.1 with hi | hi
      · exact Or.inl (Or.inr ⟨he, hi⟩)
      · exact Or.inr (Or.inr ⟨he.symm, hi⟩)

theorem pySort_perm (secs : List CfgSection) :
    List.Perm (pySortByWeightDesc secs) secs := by
  unfold pySortByWeightDesc
  have h := (List.perm_insertionSort pyKeyLe secs.enum).map Prod.snd
  rwa [List.enum_map_snd] at h

theorem not_mixed_cases (secs : List CfgSection) (h : mixedWeights secs = false) :
    (∀ s ∈ secs, ∃ w, s.mpWeight = some w) ∨ (∀ s ∈ secs, s.mpWeight = none) := by
  unfold mixedWeights at h
  rcases Bool.and_eq_false_iff.mp h with h' | h'
  · right
    intro s hs
    have hns := List.any_eq_false.mp h' s hs
    cases hw : s.mpWeight with
    | none => rfl
    | some w => exact absurd (by simp [hw]) hns
  · left
    intro s hs
    have hns := List.any_eq_false.mp h' s hs
    cases hw : s.mpWeight with
    | none => exact absurd (by simp [hw]) hns
    | some w => exact ⟨w, rfl⟩

theorem pyLt_ok_of_not_mixed (secs : List CfgSection)
    (h : mixedWeights secs = false) {a b : CfgSection}
    (ha : a ∈ secs) (hb : b ∈ secs) :
    pyLt (weightOf a) (weightOf b) = .ok (keyLt (weightOf a) (weightOf b)) := by
  rcases not_mixed_cases secs h with hall | hall
  · obtain ⟨x, hx⟩ := hall a ha
    obtain ⟨y, hy⟩ := hall b hb
    simp [weightOf, hx, hy, pyLt, keyLt]
  · simp [weightOf, hall a ha, hall b hb, pyLt, keyLt]

theorem pySort_sorted_pyLt (secs : List CfgSection)
    (hmix : mixedWeights secs = false) :
    (pySortByWeightDesc secs).Sorted
      (fun a b => pyLt (weightOf a) (weightOf b) = Except.ok false) := by
  have hpair : (pySortByWeightDesc secs).Pairwise
      (fun a b => keyLt (weightOf b) (weightOf a) = true
        ∨ weightOf a = weightOf b) := by
    unfold pySortByWeightDesc
    have h := List.sorted_insertionSort pyKeyLe secs.enum
    refine List.Pairwise.map Prod.snd ?_ h
    intro p q hpq
    rcases hpq with h1 | ⟨e, _⟩
    · exact Or.inl h1
    · exact Or.inr e
  refine List.Pairwise.imp_of_mem ?_ hpair
  intro a b ha hb hab
  have ha' : a ∈ secs := (pySort_perm secs).mem_iff.mp ha
  have hb' : b ∈ secs := (pySort_perm secs).mem_iff.mp hb
  rw [pyLt_ok_of_not_mixed secs hmix ha' hb']
  rcases hab with h1 | he
  · rw [keyLt_asymm h1]
  · rw [he, keyLt_irrefl]

theorem enumFrom_fst_ge :
    ∀ (l : List CfgSection) (m : Nat) (b : Nat × CfgSection),
      b ∈ List.enumFrom m l → m ≤ b.1 := by
  intro l
  induction l with
  | nil => intro m b hb; simp at hb
  | cons x rest ih =>
    intro m b hb
    rcases List.mem_cons.mp hb with rfl | hb'
    · exact le_refl m
    · exact le_trans (Nat.le_succ m) (ih (m + 1) b hb')

theorem enumFrom_pairwise_fst_lt (l : List CfgSection) :
    ∀ m, List.Pairwise (fun a b : Nat × CfgSection => a.1 < b.1)
      (List.enumFrom m l) := by
  induction l with
  | nil => intro m; simp
  | cons x rest ih =>
    intro m
    refine List.pairwise_cons.mpr ⟨?_, ih (m + 1)⟩
    intro b hb
    exact lt_of_lt_of_le (Nat.lt_succ_self m) (enumFrom_fst_ge rest (m + 1) b hb)

theorem pySort_const_weight (secs : List CfgSection)
    (h : ∀ s1 ∈ secs, ∀ s2 ∈ secs, weightOf s1 = weightOf s2) :
    pySortByWeightDesc secs = secs := by
  unfold pySortByWeightDesc
  have hpw : List.Pairwise (fun a b : Nat × CfgSection => a.1 < b.1) secs.enum :=
    enumFrom_pairwise_fst_lt secs 0
  have hmem : ∀ p : Nat × CfgSection, p ∈ secs.enum → p.2 ∈ secs := by
    intro p hp
    have hm : p.2 ∈ secs.enum.map Prod.snd := List.mem_map_of_mem Prod.snd hp
    rwa [List.enum_map_snd] at hm
  have hsorted : List.Sorted pyKeyLe secs.enum := by
    refine List.Pairwise.imp_of_mem ?_ hpw
    intro a b ha hb hab
    exact Or.inr ⟨h a.2 (hmem a ha) b.2 (hmem b hb), le_of_lt hab⟩
  rw [List.Sorted.insertionSort_eq hsorted]
  exact List.enum_map_snd secs

/-- C5 amended: the supervisor's weights are the Python values
config[s].get('mp.weight', 1.0) - the raw configuration string when
mp.weight is present, the float 1.0 when absent.  When the two kinds mix,
sorted raises TypeError and no assignment is produced.  Otherwise the
non-Global sections are dealt round-robin over the nproc ranks starting
after the supervisor, in descending order under Python's comparison of the
weight values (string weights compare lexicographically by code point, not
numerically), with ties between equal weights broken by the original order
of the sections in the configuration file (sorted is stable), not by
section name.  The Global section heads every rank's assignment; every
other section is dealt to exactly one rank: counts match the sorted
non-Global sections, with distinct names each occurs once across all
assignments, and the j-th section in sorted order lands on rank
(SUPERVISOR_RANK + 1 + j) mod nproc. -/
theorem distribute_assignments_supervisor_spec
    (config secs : List CfgSection) (nproc : Nat)
    (hn : 0 < nproc) (hrm : removeFirst "Global" config = some secs) :
    (mixedWeights secs = true →
      distribute_assignments_supervisor config nproc = .error DistErr.typeError)
    ∧ (mixedWeights secs = false →
      ∃ asg, distribute_assignments_supervisor config nproc = .ok asg
        ∧ asg.length = nproc
        ∧ (∀ i, i < nproc → (asg.getD i []).head? = some "Global")
        ∧ List.Perm (pySortByWeightDesc secs) secs
        ∧ (pySortByWeightDesc secs).Sorted
            (fun a b => pyLt (weightOf a) (weightOf b) = Except.ok false)
        ∧ ((∀ s1 ∈ secs, ∀ s2 ∈ secs, weightOf s1 = weightOf s2) →
            pySortByWeightDesc secs = secs)
        ∧ (∀ j (hj : j < (pySortByWeightDesc secs).length),
            ((pySortByWeightDesc secs).get ⟨j, hj⟩).name
              ∈ asg.getD ((SUPERVISOR_RANK + 1 + j) % nproc) [])
        ∧ (∀ s : String,
            (∑ i in Finset.range nproc, ((asg.getD i []).tail.count s))
              = ((pySortByWeightDesc secs).map (fun t => t.name)).count s)
        ∧ ((secs.map (fun t => t.name)).Nodup →
            ∀ t ∈ secs,
              (∑ i in Finset.range nproc, ((asg.getD i []).tail.count t.name))
                = 1)) := by
  have hr0lt : (SUPERVISOR_RANK + 1) % nproc < nproc := Nat.mod_lt _ hn
  have hlen : (List.replicate nproc (["Global"] : List String)).length = nproc := by
    simp
  have hchar : ∀ i,
      (rrAssign nproc (pySortByWeightDesc secs) ((SUPERVISOR_RANK + 1) % nproc)
          (List.replicate nproc ["Global"])).getD i []
        = (List.replicate nproc ["Global"]).getD i []
          ++ peerSlice nproc i (pySortByWeightDesc secs)
              ((SUPERVISOR_RANK + 1) % nproc) :=
    rrAssign_getD nproc hn (pySortByWeightDesc secs) _ _ hr0lt hlen
  have htail : ∀ i, i < nproc →
      ((rrAssign nproc (pySortByWeightDesc secs) ((SUPERVISOR_RANK + 1) % nproc)
          (List.replicate nproc ["Global"])).getD i []).tail
        = peerSlice nproc i (pySortByWeightDesc secs)
            ((SUPERVISOR_RANK + 1) % nproc) := by
    intro i hi
    rw [hchar i, getD_replicate_lt _ _ _ _ hi]
    rfl
  have hsum : ∀ s : String,
      (∑ i in Finset.range nproc,
          (((rrAssign nproc (pySortByWeightDesc secs)
              ((SUPERVISOR_RANK + 1) % nproc)
              (List.replicate nproc ["Global"])).getD i []).tail.count s))
        = ((pySortByWeightDesc secs).map (fun t => t.name)).count s := by
    intro s
    rw [Finset.sum_congr rfl
      (fun i hi => by rw [htail i (Finset.mem_range.mp hi)])]
    exact peerSlice_count nproc hn s (pySortByWeightDesc secs) _ hr0lt
  constructor
  · intro hmix
    simp only [distribute_assignments_supervisor, hrm, hmix, if_true]
  · intro hmix
    refine ⟨rrAssign nproc (pySortByWeightDesc secs)
        ((SUPERVISOR_RANK + 1) % nproc) (List.replicate nproc ["Global"]),
      ?_, ?_, ?_, pySort_perm secs, pySort_sorted_pyLt secs hmix,
      pySort_const_weight secs, ?_, hsum, ?_⟩
    · simp only [distribute_assignments_supervisor, hrm, hmix,
        Bool.false_eq_true, if_false]
    · rw [rrAssign_length]
      exact hlen
    · intro i hi
      rw [hchar i, getD_replicate_lt _ _ _ _ hi]
      rfl
    · intro j hj
      have hmem := peerSlice_mem nproc hn (pySortByWeightDesc secs)
        ((SUPERVISOR_RANK + 1) % nproc) j hj hr0lt
      rw [Nat.mod_add_mod] at hmem
      rw [hchar ((SUPERVISOR_RANK + 1 + j) % nproc),
          getD_replicate_lt _ _ _ _ (Nat.mod_lt _ hn)]
      exact List.mem_append.mpr (Or.inr hmem)
    · intro hnd t ht
      rw [hsum t.name]
      have hperm : List.Perm ((pySortByWeightDesc secs).map (fun t => t.name))
          (secs.map (fun t => t.name)) := (pySort_perm secs).map _
      rw [hperm.count_eq]
      exact List.count_eq_one_of_mem hnd (List.mem_map_of_mem _ ht)

/-- The non-Global sections of c5cfg, in configuration order. -/
def c5secs : List CfgSection :=
  [{ name := "b", mpWeight := none }, { name := "a", mpWeight := none }]

/-- Witness for distribute_assignments_supervisor_spec at the concrete
configuration c5cfg with two ranks. -/
theorem distribute_assignments_supervisor_spec_witness :
    0 < 2
    ∧ removeFirst "Global" c5cfg = some c5secs
    ∧ ((mixedWeights c5secs = true →
        distribute_assignments_supervisor c5cfg 2 = .error DistErr.typeError)
      ∧ (mixedWeights c5secs = false →
        ∃ asg, distribute_assignments_supervisor c5cfg 2 = .ok asg
          ∧ asg.length = 2
          ∧ (∀ i, i < 2 → (asg.getD i []).head? = some "Global")
          ∧ List.Perm (pySortByWeightDesc c5secs) c5secs
          ∧ (pySortByWeightDesc c5secs).Sorted
              (fun a b => pyLt (weightOf a) (weightOf b) = Except.ok false)
          ∧ ((∀ s1 ∈ c5secs, ∀ s2 ∈ c5secs, weightOf s1 = weightOf s2) →
              pySortByWeightDesc c5secs = c5secs)
          ∧ (∀ j (hj : j < (pySortByWeightDesc c5secs).length),
              ((pySortByWeightDesc c5secs).get ⟨j, hj⟩).name
                ∈ asg.getD ((SUPERVISOR_RANK + 1 + j) % 2) [])
          ∧ (∀ s : String,
              (∑ i in Finset.range 2, ((asg.getD i []).tail.count s))
                = ((pySortByWeightDesc c5secs).map (fun t => t.name)).count s)
          ∧ ((c5secs.map (fun t => t.name)).Nodup →
              ∀ t ∈ c5secs,
                (∑ i in Finset.range 2, ((asg.getD i []).tail.count t.name))
                  = 1))) :=
  ⟨by decide, by decide,
    distribute_assignments_supervisor_spec c5cfg c5secs 2 (by decide) (by decide)⟩
